import Mathlib

/-!
Shallow embedding of the use-case validation and categorization subsystem of
the repository (file `src/utils/use_case_validator.py`, class `UseCaseValidator`).

Strings are modelled as Lean `String` / `List Char`; Python `re` patterns are
hand-compiled into deterministic backtracking matchers specialised to the three
patterns appearing in `_extract_use_cases`.  The compilation exploits that in
these patterns every quantified subexpression is a single character class that
excludes the character required immediately after it, so the greedy quantifiers
can only succeed on their maximal run (no shorter backtracking candidate can
ever match); the one exception is the sequence chunk of pattern 2 and 3
where the whitespace star is followed by a non-newline plus, and there the full
backtracking loop over the number of consumed whitespace characters is kept.
-/

/-- Whitespace as matched by Python's regex class and by `str.strip()`
for the ASCII inputs this subsystem processes. -/
def isPyWs (c : Char) : Bool :=
  c == ' ' || c == '\t' || c == '\n' || c == '\r' || c == '\x0b' || c == '\x0c'

/-- Python `str.strip()`: drop leading and trailing whitespace. -/
def pstrip (l : List Char) : List Char :=
  ((l.dropWhile isPyWs).reverse.dropWhile isPyWs).reverse

/-- Python `str.strip()` on `String`s. -/
def pstripS (s : String) : String := String.mk (pstrip s.data)

/-- Python `text.split('\n')` (keeps empty fields, `"".split` gives one empty field). -/
def splitNL : List Char → List (List Char)
  | [] => [[]]
  | c :: rest =>
    if c = '\n' then [] :: splitNL rest
    else
      match splitNL rest with
      | [] => [[c]]
      | h :: t => (c :: h) :: t

/-- Maximal run of characters satisfying `p`, and the remaining suffix. -/
def takeRun (p : Char → Bool) : List Char → List Char × List Char
  | [] => ([], [])
  | c :: rest =>
    if p c then
      let (r, s) := takeRun p rest
      (c :: r, s)
    else ([], c :: rest)

/-- Maximal digit run (regex `\d+` when followed by a non-digit literal). -/
def takeDigits (l : List Char) : List Char × List Char := takeRun Char.isDigit l

/-- Maximal whitespace run (regex `\s*` when followed by a non-whitespace literal). -/
def takeWS (l : List Char) : List Char × List Char := takeRun isPyWs l

/-- Does `needle` occur at the start of `hay`? -/
def startsWithL : List Char → List Char → Bool
  | [], _ => true
  | _ :: _, [] => false
  | a :: as, b :: bs => a == b && startsWithL as bs

/-- The Python `needle in hay` substring test. -/
def containsSub (n : List Char) : List Char → Bool
  | [] => startsWithL n []
  | c :: rest => startsWithL n (c :: rest) || containsSub n rest

/-- Substring test on `String`s (Python `a in b`). -/
def strIncl (a b : String) : Bool := containsSub a.data b.data

/-- One candidate use case extracted from text (dict with keys
`number`, `title`, `description` in the source). -/
structure UseCase where
  number : String
  title : String
  description : String
deriving DecidableEq, Repr

/-- The five fixed categories of `UseCaseValidator.REQUIRED_CATEGORIES`. -/
inductive Category
  | genAI
  | cv
  | pred
  | nlp
  | auto
deriving DecidableEq, Repr

/-- The dict-key string of each category. -/
def Category.pyName : Category → String
  | .genAI => "Generative AI & LLMs"
  | .cv => "Computer Vision"
  | .pred => "Predictive Analytics & ML"
  | .nlp => "Natural Language Processing"
  | .auto => "Automation & Optimization"

/-- Declaration (= Python dict iteration) order of the categories. -/
def categoriesInOrder : List Category :=
  [Category.genAI, Category.cv, Category.pred, Category.nlp, Category.auto]

/-- Position of a category in the declaration order. -/
def ordIdx : Category → Nat
  | .genAI => 0
  | .cv => 1
  | .pred => 2
  | .nlp => 3
  | .auto => 4

/-- `UseCaseValidator.REQUIRED_CATEGORIES`: per-category (min, max) quota. -/
def REQUIRED_CATEGORIES : Category → Nat × Nat
  | .genAI => (4, 5)
  | .cv => (4, 5)
  | .pred => (4, 5)
  | .nlp => (2, 3)
  | .auto => (2, 3)

/-- `UseCaseValidator.CATEGORY_KEYWORDS`. -/
def CATEGORY_KEYWORDS : Category → List String
  | .genAI =>
      ["generative ai", "llm", "large language model", "gpt", "chatbot",
       "content generation", "text generation", "natural language generation",
       "conversational ai", "language model", "prompt engineering", "text synthesis"]
  | .cv =>
      ["computer vision", "image recognition", "object detection", "facial recognition",
       "image analysis", "visual inspection", "ocr", "video analysis",
       "image processing", "pattern recognition", "visual ai", "image classification"]
  | .pred =>
      ["predictive analytics", "machine learning", "forecasting", "prediction",
       "regression", "classification", "clustering", "anomaly detection",
       "time series", "demand forecasting", "risk prediction", "predictive modeling"]
  | .nlp =>
      ["natural language processing", "nlp", "sentiment analysis", "text mining",
       "text analysis", "language processing", "text classification",
       "named entity recognition", "text extraction", "document processing"]
  | .auto =>
      ["automation", "optimization", "process automation", "workflow automation",
       "robotic process automation", "rpa", "operational efficiency",
       "resource optimization", "supply chain optimization", "business process"]

/-- Lookahead `(?=\d+\.\s*\*\*)` of extraction pattern 1. -/
def heading1At (l : List Char) : Bool :=
  let (d, r) := takeDigits l
  if d = [] then false
  else
    match r with
    | '.' :: r2 =>
      match (takeWS r2).2 with
      | '*' :: '*' :: _ => true
      | _ => false
    | _ => false

/-- Lookahead `(?=\d+\.)` of extraction pattern 2. -/
def heading2At (l : List Char) : Bool :=
  let (d, r) := takeDigits l
  if d = [] then false
  else
    match r with
    | '.' :: _ => true
    | _ => false

/-- Lazy `([^0-9]*?)` up to lookahead `(?=\d+\.\s*\*\*|\Z)`: consume non-digits
until the lookahead holds or end of input; a digit where the lookahead fails
kills the match.  Returns the consumed characters and the stop suffix. -/
def scanDesc1Aux (acc : List Char) : List Char → Option (List Char × List Char)
  | [] => some (acc.reverse, [])
  | c :: rest =>
    if heading1At (c :: rest) then some (acc.reverse, c :: rest)
    else if c.isDigit then none
    else scanDesc1Aux (c :: acc) rest

/-- Lazy `([^0-9]*?)` up to lookahead `(?=\d+\.|\Z)`. -/
def scanDesc2Aux (acc : List Char) : List Char → Option (List Char × List Char)
  | [] => some (acc.reverse, [])
  | c :: rest =>
    if heading2At (c :: rest) then some (acc.reverse, c :: rest)
    else if c.isDigit then none
    else scanDesc2Aux (c :: acc) rest

/-- Lazy `([^#]*?)` up to lookahead `(?=##|\Z)`. -/
def scanDesc3Aux (acc : List Char) : List Char → Option (List Char × List Char)
  | [] => some (acc.reverse, [])
  | c :: rest =>
    if c = '#' then
      match rest with
      | '#' :: _ => some (acc.reverse, c :: rest)
      | _ => none
    else scanDesc3Aux (c :: acc) rest

def scanDesc1 (l : List Char) : Option (List Char × List Char) := scanDesc1Aux [] l

def scanDesc2 (l : List Char) : Option (List Char × List Char) := scanDesc2Aux [] l

def scanDesc3 (l : List Char) : Option (List Char × List Char) := scanDesc3Aux [] l

/-- One backtracking attempt for `\s*([^\n]+)\n(<desc>)` after consuming `w`
whitespace characters: title is the maximal non-newline run (it must be
followed by a literal newline), then the description scan must succeed. -/
def attemptTitleDesc (scanD : List Char → Option (List Char × List Char))
    (r2 : List Char) (w : Nat) : Option (List Char × List Char × List Char) :=
  let sfx := r2.drop w
  let (title, r') := takeRun (fun c => c != '\n') sfx
  if title = [] then none
  else
    match r' with
    | '\n' :: r'' =>
      match scanD r'' with
      | some (desc, rest) => some (title, desc, rest)
      | none => none
    | _ => none

/-- Backtracking loop of `\s*([^\n]+)\n(<desc>)`: the greedy `\s*` first takes
its maximal run, then shorter runs, down to the empty run. -/
def tryTitleDesc (scanD : List Char → Option (List Char × List Char))
    (r2 : List Char) : Nat → Option (List Char × List Char × List Char)
  | 0 => attemptTitleDesc scanD r2 0
  | w + 1 =>
    match attemptTitleDesc scanD r2 (w + 1) with
    | some x => some x
    | none => tryTitleDesc scanD r2 w

/-- Match of pattern 1, `(\d+)\.\s*\*\*([^*]+)\*\*\s*([^0-9]*?)(?=\d+\.\s*\*\*|\Z)`,
anchored at the given suffix.  Returns the three groups and the suffix at the
match end. -/
def matchP1 (s : List Char) : Option ((List Char × List Char × List Char) × List Char) :=
  let (num, r1) := takeDigits s
  if num = [] then none
  else
    match r1 with
    | '.' :: r2 =>
      match (takeWS r2).2 with
      | '*' :: '*' :: r4 =>
        let (title, r5) := takeRun (fun c => c != '*') r4
        if title = [] then none
        else
          match r5 with
          | '*' :: '*' :: r6 =>
            match scanDesc1 (takeWS r6).2 with
            | some (desc, rest) => some ((num, title, desc), rest)
            | none => none
          | _ => none
      | _ => none
    | _ => none

/-- Match of pattern 2, `(\d+)\.\s*([^\n]+)\n([^0-9]*?)(?=\d+\.|\Z)`, anchored
at the given suffix. -/
def matchP2 (s : List Char) : Option ((List Char × List Char × List Char) × List Char) :=
  let (num, r1) := takeDigits s
  if num = [] then none
  else
    match r1 with
    | '.' :: r2 =>
      match tryTitleDesc scanDesc2 r2 (takeWS r2).1.length with
      | some (title, desc, rest) => some ((num, title, desc), rest)
      | none => none
    | _ => none

/-- Match of pattern 3, `##\s*(\d+)\.\s*([^\n]+)\n([^#]*?)(?=##|\Z)`, anchored
at the given suffix. -/
def matchP3 (s : List Char) : Option ((List Char × List Char × List Char) × List Char) :=
  match s with
  | '#' :: '#' :: r1 =>
    let (num, r3) := takeDigits (takeWS r1).2
    if num = [] then none
    else
      match r3 with
      | '.' :: r4 =>
        match tryTitleDesc scanDesc3 r4 (takeWS r4).1.length with
        | some (title, desc, rest) => some ((num, title, desc), rest)
        | none => none
      | _ => none
  | _ => none

/-- `re.findall` driver: scan left to right, emit each leftmost match and
continue from its end (all our matches consume at least two characters, so the
fuel `length + 1` is never exhausted before the scan completes). -/
def findAllAux (m : List Char → Option ((List Char × List Char × List Char) × List Char)) :
    Nat → List Char → List (List Char × List Char × List Char)
  | 0, _ => []
  | fuel + 1, s =>
    match m s with
    | some (g, rest) => g :: findAllAux m fuel rest
    | none =>
      match s with
      | [] => []
      | _ :: t => findAllAux m fuel t

def findAllP1 (l : List Char) : List (List Char × List Char × List Char) :=
  findAllAux matchP1 (l.length + 1) l

def findAllP2 (l : List Char) : List (List Char × List Char × List Char) :=
  findAllAux matchP2 (l.length + 1) l

def findAllP3 (l : List Char) : List (List Char × List Char × List Char) :=
  findAllAux matchP3 (l.length + 1) l

/-- Build a use-case record from a pattern match: number as is, title and
description stripped (`match[1].strip()`, `match[2].strip()`). -/
def mkExtracted (g : List Char × List Char × List Char) : UseCase :=
  { number := String.mk g.1
    title := String.mk (pstrip g.2.1)
    description := String.mk (pstrip g.2.2) }

/-- A stripped line starting a record in the fallback scanner:
`re.match(r'^\d+\.', line)`. -/
def isMarker (line : List Char) : Bool :=
  let (d, r) := takeDigits line
  if d = [] then false
  else
    match r with
    | '.' :: _ => true
    | _ => false

/-- New record for a marker line: number is the digit group of
`^(\d+)\.`, title the line with the `^\d+\.\s*` part removed. -/
def newCase (line : List Char) : UseCase :=
  let (d, r) := takeDigits line
  let title :=
    match r with
    | '.' :: r2 => (takeWS r2).2
    | _ => r
  { number := String.mk d, title := String.mk title, description := "" }

/-- `current_case["description"] += line + " "`. -/
def addDesc (c : UseCase) (line : List Char) : UseCase :=
  { c with description := c.description ++ String.mk line ++ " " }

/-- Line-oriented fallback of `_extract_use_cases`: each line is stripped; a
marker line flushes the current record and starts a new one; other nonempty
lines extend the description of the current record. -/
def scanLines : List (List Char) → Option UseCase → List UseCase
  | [], cur =>
    (match cur with
     | some c => [c]
     | none => [])
  | raw :: rest, cur =>
    let line := pstrip raw
    if isMarker line then
      (match cur with
       | some c => [c]
       | none => []) ++ scanLines rest (some (newCase line))
    else
      match cur with
      | some c =>
        if line = [] then scanLines rest (some c)
        else scanLines rest (some (addDesc c line))
      | none => scanLines rest none

/-- `UseCaseValidator._extract_use_cases`: the first pattern with at least one
match wins; if none matches, the line scanner runs. -/
def extract_use_cases (text : String) : List UseCase :=
  let m1 := findAllP1 text.data
  let m2 := findAllP2 text.data
  let m3 := findAllP3 text.data
  if m1 ≠ [] then m1.map mkExtracted
  else if m2 ≠ [] then m2.map mkExtracted
  else if m3 ≠ [] then m3.map mkExtracted
  else scanLines (splitNL text.data) none

/-- The record text used for classification:
`(use_case["title"] + " " + use_case["description"]).lower()`. -/
def fullTextOf (uc : UseCase) : List Char :=
  (uc.title ++ " " ++ uc.description).data.map Char.toLower

/-- Number of keywords of a category occurring in the record text
(`sum(1 for keyword in keywords if keyword in full_text)`). -/
def scoreOf (uc : UseCase) (c : Category) : Nat :=
  (CATEGORY_KEYWORDS c).countP (fun kw => containsSub kw.data (fullTextOf uc))

/-- The best-category loop of `_categorize_use_cases`: running pair
`(best_category, max_matches)`, updated when a score is strictly greater. -/
def pickBest (uc : UseCase) : List Category → Option Category × Nat → Option Category × Nat
  | [], acc => acc
  | c :: rest, acc =>
    pickBest uc rest (if scoreOf uc c > acc.2 then (some c, scoreOf uc c) else acc)

/-- Secondary fallback chain (`# Default categorization based on common terms`). -/
def fallbackCategory (ft : List Char) : Category :=
  if ["chatbot", "content", "generate", "language"].any
      (fun t => containsSub t.data ft) then Category.genAI
  else if ["image", "visual", "vision", "detection"].any
      (fun t => containsSub t.data ft) then Category.cv
  else if ["predict", "forecast", "analytics", "model"].any
      (fun t => containsSub t.data ft) then Category.pred
  else if ["text", "document", "sentiment"].any
      (fun t => containsSub t.data ft) then Category.nlp
  else Category.auto

/-- Category a single record is counted under: keyword winner when
`best_category and max_matches > 0`, otherwise the fallback chain. -/
def classifyUseCase (uc : UseCase) : Category :=
  let ft := fullTextOf uc
  let best := pickBest uc categoriesInOrder (none, 0)
  match best.1 with
  | some b => if 0 < best.2 then b else fallbackCategory ft
  | none => fallbackCategory ft

/-- Increment the counter of one category. -/
def bump (counts : Category → Nat) (c : Category) : Category → Nat :=
  fun x => if x = c then counts x + 1 else counts x

/-- `UseCaseValidator._categorize_use_cases`: counts start at zero for every
category; each record increments the counter of its category. -/
def categorize_use_cases (ucs : List UseCase) : Category → Nat :=
  ucs.foldl (fun counts uc => bump counts (classifyUseCase uc)) (fun _ => 0)

/-- Output contract of `validate_use_cases` (dict in the source). -/
structure ValidationResult where
  valid : Bool
  total_count : Nat
  category_counts : Category → Nat
  missing_categories : List String
  issues : List String
  extracted_use_cases : List UseCase

/-- Issue string for a bad total: `f"Total use cases: {n}, need 15-20"`. -/
def totalIssueMsg (n : Nat) : String :=
  "Total use cases: " ++ toString n ++ ", need 15-20"

/-- Issue string for a bad category:
`f"{category}: Found {count}, need {min}-{max}"`. -/
def catIssueMsg (c : Category) (n : Nat) : String :=
  Category.pyName c ++ ": Found " ++ toString n ++ ", need " ++
    toString (REQUIRED_CATEGORIES c).1 ++ "-" ++ toString (REQUIRED_CATEGORIES c).2

/-- The per-category validation loop: walks the categories in declaration
order and appends, for each out-of-range category, its name to
`missing_categories` and its issue string to `issues`. -/
def categoryViolations (counts : Category → Nat) : List Category → List String × List String
  | [] => ([], [])
  | c :: rest =>
    let r := categoryViolations counts rest
    if counts c < (REQUIRED_CATEGORIES c).1 ∨ (REQUIRED_CATEGORIES c).2 < counts c then
      (Category.pyName c :: r.1, catIssueMsg c (counts c) :: r.2)
    else r

/-- The body of `validate_use_cases` (the code inside the `try`). -/
def validate_body (text : String) : ValidationResult :=
  let extracted := extract_use_cases text
  let total := extracted.length
  let counts := categorize_use_cases extracted
  let totalIssues := if total < 15 ∨ 20 < total then [totalIssueMsg total] else []
  let cv := categoryViolations counts categoriesInOrder
  let issues := totalIssues ++ cv.2
  { valid := issues.isEmpty
    total_count := total
    category_counts := counts
    missing_categories := cv.1
    issues := issues
    extracted_use_cases := extracted }

/-- The result produced by the `except` handler: the initial result dict with
one synthetic violation `f"Validation error: {e}"` appended (the body fails
before filling any other field, so they keep their initial values; the empty
initial `category_counts` dict is modelled as all-zero counts). -/
def validationErrorResult (e : String) : ValidationResult :=
  { valid := false
    total_count := 0
    category_counts := fun _ => 0
    missing_categories := []
    issues := ["Validation error: " ++ e]
    extracted_use_cases := [] }

/-- The `try` block as a fallible computation.  Every operation the Python
body performs on a `str` argument is total (regex search, string
concatenation, counting), so the computation always succeeds; the `Except`
type records where the exception boundary of the source sits. -/
def validate_use_casesE (text : String) : Except String ValidationResult :=
  Except.ok (validate_body text)

/-- `UseCaseValidator.validate_use_cases`: run the body, converting an error
at the boundary into a result carrying the synthetic violation. -/
def validate_use_cases (text : String) : ValidationResult :=
  match validate_use_casesE text with
  | Except.ok r => r
  | Except.error e => validationErrorResult e

/-- Requirement line of the prompt for one category: two spaces, a star, the
category name, a colon, the min-max range and the words use cases. -/
def catReqLine (c : Category) : String :=
  "  * " ++ Category.pyName c ++ ": " ++ toString (REQUIRED_CATEGORIES c).1 ++ "-" ++
    toString (REQUIRED_CATEGORIES c).2 ++ " use cases\n"

/-- Head line of the corrective prompt. -/
def promptHeader : String :=
  "CRITICAL: The generated use cases do not meet requirements. Please regenerate to fix:\n\n"

/-- The requirement-table header appended after the issue lines (the source
appends its three literals one after the other, concatenated here). -/
def promptReqHeader : String :=
  "\nREQUIREMENTS:\n- Generate EXACTLY 15-20 use cases total\n- Distribute across categories as follows:\n"

/-- Trailing per-use-case content requirements (six consecutive literal
appends of the source, concatenated here). -/
def promptTail : String :=
  "\nEach use case MUST include:\n- Clear title with category keywords\n- Detailed description\n- ROI estimate\n- Implementation complexity\n- Business value\n"

/-- `UseCaseValidator.generate_enhancement_prompt`. -/
def generate_enhancement_prompt (vr : ValidationResult) : String :=
  if vr.valid then ""
  else
    let p1 := vr.issues.foldl (fun acc i => acc ++ ("- " ++ i ++ "\n")) promptHeader
    let p3 := categoriesInOrder.foldl (fun acc c => acc ++ catReqLine c) (p1 ++ promptReqHeader)
    p3 ++ promptTail

/-- Right fold view of repeated string accumulation. -/
def strConcat : List String → String
  | [] => ""
  | s :: rest => s ++ strConcat rest

/-- Shape of fallback-scanner descriptions: a concatenation of stripped
nonempty body lines, each followed by one space character. -/
def descShape (d : String) : Prop :=
  ∃ ls : List (List Char),
    (∀ l ∈ ls, l ≠ [] ∧ pstrip l = l) ∧
      d.data = (ls.map (fun l => l ++ [' '])).flatten

/-- Sum of all category counters, in declaration order
(Python `sum(category_counts.values())`). -/
def sumCounts (counts : Category → Nat) : Nat := (categoriesInOrder.map counts).sum

/-- Out-of-range test for one category (`count < min or count > max`). -/
def outOfRange (counts : Category → Nat) (c : Category) : Bool :=
  decide (counts c < (REQUIRED_CATEGORIES c).1 ∨ (REQUIRED_CATEGORIES c).2 < counts c)

lemma sumCounts_bump (counts : Category → Nat) (c : Category) :
    sumCounts (bump counts c) = sumCounts counts + 1 := by
  cases c <;> simp [sumCounts, categoriesInOrder, bump] <;> omega

lemma categorize_foldl_length (l : List UseCase) :
    ∀ counts : Category → Nat,
      sumCounts (l.foldl (fun cs uc => bump cs (classifyUseCase uc)) counts) =
        sumCounts counts + l.length := by
  induction l with
  | nil => intro counts; simp
  | cons uc t ih =>
    intro counts
    simp only [List.foldl_cons, List.length_cons]
    rw [ih, sumCounts_bump]
    omega

lemma categoryViolations_eq (counts : Category → Nat) (l : List Category) :
    categoryViolations counts l =
      ((l.filter (outOfRange counts)).map Category.pyName,
       (l.filter (outOfRange counts)).map (fun c => catIssueMsg c (counts c))) := by
  induction l with
  | nil => rfl
  | cons c t ih =>
    by_cases h : counts c < (REQUIRED_CATEGORIES c).1 ∨ (REQUIRED_CATEGORIES c).2 < counts c
    · simp [categoryViolations, List.filter_cons, outOfRange, h, ih]
    · simp [categoryViolations, List.filter_cons, outOfRange, h, ih]

lemma dropWhile_dropWhile (p : Char → Bool) (l : List Char) :
    (l.dropWhile p).dropWhile p = l.dropWhile p := by
  induction l with
  | nil => rfl
  | cons c t ih =>
    by_cases h : p c = true
    · simp [List.dropWhile_cons, h, ih]
    · simp [List.dropWhile_cons, h]

/-- A list equal to its own front strip stays so on any literal decomposition
of its tail away. -/
lemma dropWhile_eq_self_of_append (p : Char → Bool) (l₁ t : List Char)
    (h : (l₁ ++ t).dropWhile p = l₁ ++ t) : l₁.dropWhile p = l₁ := by
  cases l₁ with
  | nil => rfl
  | cons c u =>
    by_cases hc : p c = true
    · exfalso
      have h2 : (u ++ t).dropWhile p = c :: (u ++ t) := by
        simpa [List.dropWhile_cons, hc] using h
      have hlen := congrArg List.length h2
      have hle := List.Sublist.length_le (List.dropWhile_sublist (l := u ++ t) p)
      simp at hlen
      simp at hle
      omega
    · simp [List.dropWhile_cons, hc]

lemma pstrip_idem (l : List Char) : pstrip (pstrip l) = pstrip l := by
  unfold pstrip
  set x := l.dropWhile isPyWs with hx
  set y := (x.reverse.dropWhile isPyWs).reverse with hy
  have hxfront : x.dropWhile isPyWs = x := dropWhile_dropWhile isPyWs l
  have hdecomp : x = y ++ (x.reverse.takeWhile isPyWs).reverse := by
    have : x.reverse.takeWhile isPyWs ++ x.reverse.dropWhile isPyWs = x.reverse :=
      List.takeWhile_append_dropWhile isPyWs x.reverse
    calc x = x.reverse.reverse := (List.reverse_reverse x).symm
    _ = (x.reverse.takeWhile isPyWs ++ x.reverse.dropWhile isPyWs).reverse := by rw [this]
    _ = y ++ (x.reverse.takeWhile isPyWs).reverse := by
        rw [List.reverse_append]
  have hyfront : y.dropWhile isPyWs = y := by
    apply dropWhile_eq_self_of_append isPyWs y (x.reverse.takeWhile isPyWs).reverse
    rw [← hdecomp]
    exact hxfront
  rw [hyfront, List.reverse_reverse, dropWhile_dropWhile]

lemma pstripS_idem (s : String) : pstripS (pstripS s) = pstripS s := by
  simp [pstripS, pstrip_idem]

lemma startsWithL_refl (n : List Char) : startsWithL n n = true := by
  induction n with
  | nil => rfl
  | cons c t ih => simp [startsWithL, ih]

lemma startsWithL_append (n : List Char) :
    ∀ h t : List Char, startsWithL n h = true → startsWithL n (h ++ t) = true := by
  induction n with
  | nil => intro h t _; rfl
  | cons a as ih =>
    intro h t hs
    cases h with
    | nil => simp [startsWithL] at hs
    | cons b bs =>
      simp [startsWithL] at hs ⊢
      exact ⟨hs.1, ih bs t hs.2⟩

lemma containsSub_nil_left (t : List Char) : containsSub [] t = true := by
  cases t <;> simp [containsSub, startsWithL]

lemma containsSub_append_right (n : List Char) :
    ∀ h t : List Char, containsSub n h = true → containsSub n (h ++ t) = true := by
  intro h
  induction h with
  | nil =>
    intro t hc
    simp [containsSub, startsWithL] at hc
    cases n with
    | nil => exact containsSub_nil_left t
    | cons a as => simp [startsWithL] at hc
  | cons c hs ih =>
    intro t hc
    simp [containsSub] at hc ⊢
    rcases hc with hc | hc
    · exact Or.inl (by simpa using startsWithL_append n (c :: hs) t hc)
    · exact Or.inr (ih t hc)

lemma containsSub_append_left (n : List Char) :
    ∀ h t : List Char, containsSub n t = true → containsSub n (h ++ t) = true := by
  intro h
  induction h with
  | nil => intro t hc; exact hc
  | cons c hs ih =>
    intro t hc
    simp [containsSub]
    exact Or.inr (ih t hc)

lemma containsSub_refl (n : List Char) : containsSub n n = true := by
  cases n with
  | nil => rfl
  | cons c t => simp [containsSub, startsWithL_refl]

lemma strIncl_append_right (a s t : String) (h : strIncl a s = true) :
    strIncl a (s ++ t) = true := by
  simp only [strIncl, String.data_append]
  exact containsSub_append_right a.data s.data t.data h

lemma strIncl_append_left (a s t : String) (h : strIncl a t = true) :
    strIncl a (s ++ t) = true := by
  simp only [strIncl, String.data_append]
  exact containsSub_append_left a.data s.data t.data h

lemma strIncl_refl (a : String) : strIncl a a = true := containsSub_refl a.data

lemma foldl_strAppend (f : α → String) (l : List α) :
    ∀ init : String,
      l.foldl (fun acc x => acc ++ f x) init = init ++ strConcat (l.map f) := by
  induction l with
  | nil => intro init; simp [strConcat]
  | cons x t ih =>
    intro init
    simp only [List.foldl_cons, List.map_cons, strConcat]
    rw [ih, String.append_assoc]

lemma strIncl_issue_block (i : String) (l : List String) (h : i ∈ l) :
    strIncl i (strConcat (l.map fun x => "- " ++ x ++ "\n")) = true := by
  induction l with
  | nil => simp at h
  | cons x t ih =>
    simp only [List.map_cons, strConcat]
    rcases List.mem_cons.mp h with rfl | hmem
    · apply strIncl_append_right
      apply strIncl_append_right
      exact strIncl_append_left _ _ _ (strIncl_refl i)
    · exact strIncl_append_left _ _ _ (ih hmem)

lemma scanLines_length (ls : List (List Char)) :
    ∀ cur : Option UseCase,
      (scanLines ls cur).length =
        ls.countP (fun raw => isMarker (pstrip raw)) +
          (match cur with | some _ => 1 | none => 0) := by
  induction ls with
  | nil => intro cur; cases cur <;> simp [scanLines]
  | cons raw rest ih =>
    intro cur
    by_cases h : isMarker (pstrip raw) = true
    · cases cur <;> simp [scanLines, h, ih, List.countP_cons]
    · cases cur with
      | none => simp [scanLines, h, ih, List.countP_cons]
      | some c =>
        by_cases hl : pstrip raw = []
        · simp [scanLines, h, hl, ih, List.countP_cons,
            show isMarker ([] : List Char) = false from rfl]
        · simp [scanLines, h, hl, ih, List.countP_cons]

lemma descShape_empty : descShape "" := ⟨[], by simp, by simp⟩

lemma descShape_addDesc (c : UseCase) (line : List Char) (hne : line ≠ [])
    (hstr : pstrip line = line) (h : descShape c.description) :
    descShape (addDesc c line).description := by
  obtain ⟨ls, hls, hdata⟩ := h
  refine ⟨ls ++ [line], ?_, ?_⟩
  · intro l hl
    rcases List.mem_append.mp hl with hl | hl
    · exact hls l hl
    · simp at hl
      subst hl
      exact ⟨hne, hstr⟩
  · simp only [addDesc, String.data_append, List.map_append, List.flatten_append]
    simp [hdata]

lemma scanLines_desc (ls : List (List Char)) :
    ∀ cur : Option UseCase,
      (∀ c, cur = some c → descShape c.description) →
      ∀ r ∈ scanLines ls cur, descShape r.description := by
  induction ls with
  | nil =>
    intro cur hcur r hr
    cases cur with
    | none => simp [scanLines] at hr
    | some c =>
      simp [scanLines] at hr
      subst hr
      exact hcur _ rfl
  | cons raw rest ih =>
    intro cur hcur r hr
    by_cases h : isMarker (pstrip raw) = true
    · simp only [scanLines, h, if_pos] at hr
      rcases List.mem_append.mp hr with hr | hr
      · cases cur with
        | none => simp at hr
        | some c =>
          simp at hr
          subst hr
          exact hcur _ rfl
      · refine ih (some (newCase (pstrip raw))) ?_ r hr
        intro c hc
        injection hc with hc
        subst hc
        exact descShape_empty
    · cases cur with
      | none =>
        simp only [scanLines, h, if_neg, Bool.not_eq_true] at hr
        exact ih none (by intro c hc; cases hc) r hr
      | some c =>
        by_cases hl : pstrip raw = []
        · simp only [scanLines, h, hl, if_neg, Bool.not_eq_true, if_pos] at hr
          exact ih (some c) (by intro d hd; injection hd with hd; subst hd; exact hcur c rfl) r hr
        · simp only [scanLines, h, hl, if_neg, Bool.not_eq_true] at hr
          refine ih (some (addDesc c (pstrip raw))) ?_ r hr
          intro d hd
          injection hd with hd
          subst hd
          exact descShape_addDesc c (pstrip raw) hl (pstrip_idem raw) (hcur c rfl)

lemma validate_total_count (text : String) :
    (validate_use_cases text).total_count = (extract_use_cases text).length := rfl

lemma validate_category_counts (text : String) :
    (validate_use_cases text).category_counts = categorize_use_cases (extract_use_cases text) := rfl

lemma validate_valid_def (text : String) :
    (validate_use_cases text).valid = (validate_use_cases text).issues.isEmpty := rfl

lemma validate_issues_eq (text : String) :
    (validate_use_cases text).issues =
      (if (extract_use_cases text).length < 15 ∨ 20 < (extract_use_cases text).length
        then [totalIssueMsg (extract_use_cases text).length] else []) ++
      (categoriesInOrder.filter (outOfRange (categorize_use_cases (extract_use_cases text)))).map
        (fun c => catIssueMsg c (categorize_use_cases (extract_use_cases text) c)) := by
  have h : (validate_use_cases text).issues =
      (if (extract_use_cases text).length < 15 ∨ 20 < (extract_use_cases text).length
        then [totalIssueMsg (extract_use_cases text).length] else []) ++
      (categoryViolations (categorize_use_cases (extract_use_cases text)) categoriesInOrder).2 := rfl
  rw [h, categoryViolations_eq]

lemma validate_missing_eq (text : String) :
    (validate_use_cases text).missing_categories =
      (categoriesInOrder.filter (outOfRange (categorize_use_cases (extract_use_cases text)))).map
        Category.pyName := by
  have h : (validate_use_cases text).missing_categories =
      (categoryViolations (categorize_use_cases (extract_use_cases text)) categoriesInOrder).1 := rfl
  rw [h, categoryViolations_eq]

lemma validate_issues_nil_iff (text : String) :
    (validate_use_cases text).issues = [] ↔
      (15 ≤ (extract_use_cases text).length ∧ (extract_use_cases text).length ≤ 20 ∧
        ∀ c ∈ categoriesInOrder,
          (REQUIRED_CATEGORIES c).1 ≤ categorize_use_cases (extract_use_cases text) c ∧
            categorize_use_cases (extract_use_cases text) c ≤ (REQUIRED_CATEGORIES c).2) := by
  rw [validate_issues_eq]
  rw [List.append_eq_nil, List.map_eq_nil_iff, List.filter_eq_nil_iff]
  constructor
  · rintro ⟨h1, h2⟩
    by_cases hT : (extract_use_cases text).length < 15 ∨ 20 < (extract_use_cases text).length
    · rw [if_pos hT] at h1
      cases h1
    · refine ⟨by omega, by omega, ?_⟩
      intro c hc
      have := h2 c hc
      simp only [outOfRange, decide_eq_true_eq, not_or, not_lt] at this
      exact this
  · rintro ⟨ha, hb, hc⟩
    refine ⟨?_, ?_⟩
    · rw [if_neg (by omega)]
    · intro c hcm
      simp only [outOfRange, decide_eq_true_eq, not_or, not_lt]
      exact hc c hcm

/-- C1: for every input text the validation result is valid exactly when the
total extracted-record count lies in [15, 20] and every category count lies in
its declared [min, max] range; equivalently, exactly when the issue list is
empty. -/
theorem c1_is_valid_characterization (text : String) :
    ((validate_use_cases text).valid = true ↔
      (15 ≤ (validate_use_cases text).total_count ∧ (validate_use_cases text).total_count ≤ 20 ∧
        ∀ c ∈ categoriesInOrder,
          (REQUIRED_CATEGORIES c).1 ≤ (validate_use_cases text).category_counts c ∧
            (validate_use_cases text).category_counts c ≤ (REQUIRED_CATEGORIES c).2)) ∧
    ((validate_use_cases text).valid = true ↔ (validate_use_cases text).issues = []) := by
  have hv : ((validate_use_cases text).valid = true ↔ (validate_use_cases text).issues = []) := by
    rw [validate_valid_def]
    simp [List.isEmpty_iff]
  refine ⟨?_, hv⟩
  rw [hv, validate_total_count, validate_category_counts]
  exact validate_issues_nil_iff text

/-- C2: the per-category counts produced by the classifier always sum to the
number of extracted records, for every input text. -/
theorem c2_count_conservation (text : String) :
    sumCounts ((validate_use_cases text).category_counts) = (validate_use_cases text).total_count := by
  rw [validate_category_counts, validate_total_count]
  unfold categorize_use_cases
  rw [categorize_foldl_length]
  simp [sumCounts, categoriesInOrder]

/-- C7: the issue list contains exactly one string per broken constraint, the
global-total violation first (when the total is outside [15, 20]), then one
violation per out-of-range category in declared category order. -/
theorem c7_issues_enumeration (text : String) :
    (validate_use_cases text).issues =
      (if (validate_use_cases text).total_count < 15 ∨ 20 < (validate_use_cases text).total_count
        then [totalIssueMsg (validate_use_cases text).total_count] else []) ++
      (categoriesInOrder.filter (outOfRange ((validate_use_cases text).category_counts))).map
        (fun c => catIssueMsg c ((validate_use_cases text).category_counts c)) :=
  validate_issues_eq text

/-- C10: the missing_categories list names, in declared order, exactly the
categories whose count is outside their [min, max] range (including
over-quota categories), and it is empty exactly when every per-category
constraint holds. -/
theorem c10_missing_categories (text : String) :
    ((validate_use_cases text).missing_categories =
      (categoriesInOrder.filter (outOfRange ((validate_use_cases text).category_counts))).map
        Category.pyName) ∧
    ((validate_use_cases text).missing_categories = [] ↔
      ∀ c ∈ categoriesInOrder,
        (REQUIRED_CATEGORIES c).1 ≤ (validate_use_cases text).category_counts c ∧
          (validate_use_cases text).category_counts c ≤ (REQUIRED_CATEGORIES c).2) := by
  have hm := validate_missing_eq text
  refine ⟨hm, ?_⟩
  rw [hm, List.map_eq_nil_iff, List.filter_eq_nil_iff]
  constructor
  · intro h c hc
    have := h c hc
    simp only [outOfRange, decide_eq_true_eq, not_or, not_lt] at this
    exact this
  · intro h c hc
    simp only [outOfRange, decide_eq_true_eq, not_or, not_lt]
    exact h c hc

lemma strIncl_strConcat_mem (x : String) (l : List String) (h : x ∈ l) :
    strIncl x (strConcat l) = true := by
  induction l with
  | nil => simp at h
  | cons y t ih =>
    rcases List.mem_cons.mp h with rfl | hmem
    · exact strIncl_append_right _ _ _ (strIncl_refl x)
    · exact strIncl_append_left _ _ _ (ih hmem)

lemma pickBest_stable (uc : UseCase) :
    ∀ (l : List Category) (acc : Option Category × Nat),
      (∀ d ∈ l, scoreOf uc d ≤ acc.2) → pickBest uc l acc = acc := by
  intro l
  induction l with
  | nil => intro acc _; rfl
  | cons e t ih =>
    intro acc h
    have he := h e (List.mem_cons_self e t)
    simp only [pickBest]
    rw [if_neg (by omega)]
    exact ih acc (fun d hd => h d (List.mem_cons_of_mem e hd))

lemma pickBest_split (uc : UseCase) (c : Category) :
    ∀ (l₁ : List Category) (l₂ : List Category) (acc : Option Category × Nat),
      acc.2 < scoreOf uc c →
      (∀ d ∈ l₁, scoreOf uc d < scoreOf uc c) →
      (∀ d ∈ l₂, scoreOf uc d ≤ scoreOf uc c) →
      pickBest uc (l₁ ++ c :: l₂) acc = (some c, scoreOf uc c) := by
  intro l₁
  induction l₁ with
  | nil =>
    intro l₂ acc hacc _ h2
    simp only [List.nil_append, pickBest]
    rw [if_pos (by omega)]
    exact pickBest_stable uc l₂ (some c, scoreOf uc c) (fun d hd => h2 d hd)
  | cons e t ih =>
    intro l₂ acc hacc h1 h2
    simp only [List.cons_append, pickBest]
    have he := h1 e (List.mem_cons_self e t)
    by_cases hcase : scoreOf uc e > acc.2
    · rw [if_pos hcase]
      exact ih l₂ (some e, scoreOf uc e) (by simpa using he)
        (fun d hd => h1 d (List.mem_cons_of_mem e hd)) h2
    · rw [if_neg hcase]
      exact ih l₂ acc hacc (fun d hd => h1 d (List.mem_cons_of_mem e hd)) h2

/-- C3: when a record matches at least one keyword, the classifier picks the
category with the maximal keyword count, and on ties the first such category
in declaration order. -/
theorem c3_tiebreak_first_category (uc : UseCase) (c : Category)
    (hpos : 0 < scoreOf uc c)
    (hmax : ∀ d, scoreOf uc d ≤ scoreOf uc c)
    (hbefore : ∀ d, ordIdx d < ordIdx c → scoreOf uc d < scoreOf uc c) :
    classifyUseCase uc = c := by
  have hb : pickBest uc categoriesInOrder (none, 0) = (some c, scoreOf uc c) := by
    cases c with
    | genAI =>
      exact pickBest_split uc Category.genAI []
        [Category.cv, Category.pred, Category.nlp, Category.auto] (none, 0) hpos
        (by intro d hd; simp at hd) (fun d _ => hmax d)
    | cv =>
      exact pickBest_split uc Category.cv [Category.genAI]
        [Category.pred, Category.nlp, Category.auto] (none, 0) hpos
        (by intro d hd; simp at hd; subst hd; exact hbefore _ (by decide))
        (fun d _ => hmax d)
    | pred =>
      exact pickBest_split uc Category.pred [Category.genAI, Category.cv]
        [Category.nlp, Category.auto] (none, 0) hpos
        (by intro d hd; simp at hd; rcases hd with rfl | rfl <;> exact hbefore _ (by decide))
        (fun d _ => hmax d)
    | nlp =>
      exact pickBest_split uc Category.nlp [Category.genAI, Category.cv, Category.pred]
        [Category.auto] (none, 0) hpos
        (by intro d hd; simp at hd; rcases hd with rfl | rfl | rfl <;> exact hbefore _ (by decide))
        (fun d _ => hmax d)
    | auto =>
      exact pickBest_split uc Category.auto
        [Category.genAI, Category.cv, Category.pred, Category.nlp] [] (none, 0) hpos
        (by intro d hd; simp at hd; rcases hd with rfl | rfl | rfl | rfl <;> exact hbefore _ (by decide))
        (fun d hd => by simp at hd)
  unfold classifyUseCase
  rw [hb]
  simp [hpos]

/-- Witness for C3: a record with exactly one Generative-AI keyword (gpt) and
one Computer-Vision keyword (object detection) classifies as Generative AI. -/
theorem c3_tiebreak_witness :
    classifyUseCase { number := "1", title := "gpt", description := "object detection" } =
      Category.genAI :=
  c3_tiebreak_first_category _ Category.genAI (by decide)
    (fun d => by cases d <;> decide)
    (fun d h => by cases d <;> simp [ordIdx] at h)

/-- C4 counterexample: the record text "generative" matches zero keywords of
every category and contains the claimed fallback term "generative", yet it is
classified as Automation & Optimization, not Generative AI & LLMs: the
first fallback term list of the source is chatbot/content/generate/language, and
"generate" is not a substring of "generative". -/
theorem c4_generative_term_counterexample :
    scoreOf { number := "1", title := "generative", description := "" } Category.genAI = 0 ∧
    scoreOf { number := "1", title := "generative", description := "" } Category.cv = 0 ∧
    scoreOf { number := "1", title := "generative", description := "" } Category.pred = 0 ∧
    scoreOf { number := "1", title := "generative", description := "" } Category.nlp = 0 ∧
    scoreOf { number := "1", title := "generative", description := "" } Category.auto = 0 ∧
    containsSub "generative".data
      (fullTextOf { number := "1", title := "generative", description := "" }) = true ∧
    classifyUseCase { number := "1", title := "generative", description := "" } =
      Category.auto ∧
    Category.auto ≠ Category.genAI := by decide

/-- C4 (amended): when every keyword score of every category is zero, the classifier
applies the secondary fallback in fixed priority order with first match
winning — chatbot/content/generate/language terms give Generative AI & LLMs
(the term is "generate", not "generative"); image/visual/vision/detection
give Computer Vision; predict/forecast/analytics/model give Predictive
Analytics & ML; text/document/sentiment give Natural Language Processing;
otherwise Automation & Optimization — so every record is assigned exactly one
category. -/
theorem c4_fallback_chain (uc : UseCase) (h : ∀ c, scoreOf uc c = 0) :
    classifyUseCase uc =
      (if ["chatbot", "content", "generate", "language"].any
          (fun t => containsSub t.data (fullTextOf uc)) then Category.genAI
       else if ["image", "visual", "vision", "detection"].any
          (fun t => containsSub t.data (fullTextOf uc)) then Category.cv
       else if ["predict", "forecast", "analytics", "model"].any
          (fun t => containsSub t.data (fullTextOf uc)) then Category.pred
       else if ["text", "document", "sentiment"].any
          (fun t => containsSub t.data (fullTextOf uc)) then Category.nlp
       else Category.auto) := by
  have hb : pickBest uc categoriesInOrder (none, 0) = (none, 0) :=
    pickBest_stable uc categoriesInOrder (none, 0) (fun d _ => by simp [h])
  unfold classifyUseCase
  rw [hb]
  rfl

/-- Witness for C4: a record with no keyword and no fallback term lands in the
unconditional default Automation & Optimization. -/
theorem c4_fallback_witness :
    classifyUseCase { number := "1", title := "hello world", description := "" } =
      Category.auto := by
  have h := c4_fallback_chain { number := "1", title := "hello world", description := "" }
    (fun c => by cases c <;> decide)
  rw [h]
  decide

/-- C5 counterexample: the input "1." (a number with no recognizable title)
is kept as a record with an empty title, not discarded. -/
theorem c5_empty_title_counterexample :
    extract_use_cases "1." = [{ number := "1", title := "", description := "" }] ∧
    (extract_use_cases "1.").map (fun r => pstripS r.title) = [""] := by decide

/-- C5 (amended): the extractor never discards a record for lacking a title —
when no grammar matches, the line scanner emits exactly one record per
stripped line starting with an integer and a period, keeping number-only
records with an empty title. -/
theorem c5_marker_lines_kept (text : String)
    (h1 : findAllP1 text.data = []) (h2 : findAllP2 text.data = [])
    (h3 : findAllP3 text.data = []) :
    (extract_use_cases text).length =
      (splitNL text.data).countP (fun raw => isMarker (pstrip raw)) := by
  unfold extract_use_cases
  simp only [h1, h2, h3, ne_eq, not_true_eq_false, if_false]
  rw [scanLines_length]
  simp

/-- Witness for C5: on the input "1." no grammar matches, the scanner keeps
the number-only line, and the extracted count equals the marker-line count. -/
theorem c5_marker_lines_witness :
    (extract_use_cases "1.").length =
      (splitNL ("1." : String).data).countP (fun raw => isMarker (pstrip raw)) ∧
    (extract_use_cases "1.").length = 1 :=
  ⟨c5_marker_lines_kept "1." (by decide) (by decide) (by decide), by decide⟩

/-- C6 counterexample: under the line-scanner fallback the description of the
record extracted from "1.\nbody" is "body " — the body line with a trailing
space appended — and not the trimmed "body" the claim requires. -/
theorem c6_untrimmed_description_counterexample :
    extract_use_cases "1.\nbody" = [{ number := "1", title := "", description := "body " }] ∧
    pstripS "body " = "body" ∧
    ("body " : String) ≠ "body" := by decide

/-- C6 (amended): under the heading grammars, for every extracted record the
description is a stripped capture (stripping it again changes nothing), and
under the line-scanner fallback the description is the concatenation of the
stripped nonempty body lines, each followed by a single space, with no final
trim. -/
theorem c6_description_shape (text : String) :
    ((findAllP1 text.data ≠ [] ∨ findAllP2 text.data ≠ [] ∨ findAllP3 text.data ≠ []) →
      ∀ r ∈ extract_use_cases text, pstripS r.description = r.description) ∧
    ((findAllP1 text.data = [] ∧ findAllP2 text.data = [] ∧ findAllP3 text.data = []) →
      ∀ r ∈ extract_use_cases text, descShape r.description) := by
  constructor
  · intro h r hr
    have hstrip : ∀ g : List Char × List Char × List Char,
        r = mkExtracted g → pstripS r.description = r.description := by
      rintro g rfl
      show pstripS (String.mk (pstrip g.2.2)) = String.mk (pstrip g.2.2)
      simp [pstripS, pstrip_idem]
    unfold extract_use_cases at hr
    by_cases h1 : findAllP1 text.data = []
    · by_cases h2 : findAllP2 text.data = []
      · by_cases h3 : findAllP3 text.data = []
        · rcases h with h | h | h <;> contradiction
        · simp only [h1, h2, ne_eq, not_true_eq_false, if_false, h3, if_true,
            not_false_eq_true] at hr
          obtain ⟨g, _, hg⟩ := List.mem_map.mp hr
          exact hstrip g hg.symm
      · simp only [h1, ne_eq, not_true_eq_false, if_false, h2, if_true,
          not_false_eq_true] at hr
        obtain ⟨g, _, hg⟩ := List.mem_map.mp hr
        exact hstrip g hg.symm
    · simp only [ne_eq, h1, not_false_eq_true, if_true] at hr
      obtain ⟨g, _, hg⟩ := List.mem_map.mp hr
      exact hstrip g hg.symm
  · rintro ⟨h1, h2, h3⟩ r hr
    unfold extract_use_cases at hr
    simp only [h1, h2, h3, ne_eq, not_true_eq_false, if_false] at hr
    exact scanLines_desc (splitNL text.data) none (by intro c hc; cases hc) r hr

/-- Witness for C6: the fallback-extracted record of "1.\nbody" has a
space-terminated description of the required shape. -/
theorem c6_description_shape_witness :
    descShape ((extract_use_cases "1.\nbody").headD
      { number := "", title := "", description := "" }).description := by
  have h := (c6_description_shape "1.\nbody").2 ⟨by decide, by decide, by decide⟩
  exact h _ (by decide)

/-- C8: the validator body is total, so for every string input the fallible
computation succeeds and no exception escapes; the boundary handler converts
any internal error into a result with a single synthetic violation and
is_valid false; malformed inputs degrade to an empty record sequence. -/
theorem c8_no_exception_boundary :
    (∀ text : String, validate_use_casesE text = Except.ok (validate_use_cases text)) ∧
    (∀ e : String, (validationErrorResult e).issues = ["Validation error: " ++ e] ∧
      (validationErrorResult e).valid = false) ∧
    extract_use_cases "no numbered content here" = [] ∧
    (validate_use_cases "").total_count = 0 ∧
    (validate_use_cases "").valid = false :=
  ⟨fun _ => rfl, fun _ => ⟨rfl, rfl⟩, by decide, by decide, by decide⟩

/-- C9: the corrective prompt is empty for a valid result; for an invalid
result it contains every violation string verbatim, each per-category
requirement line, and the global 15-20 requirement line. -/
theorem c9_enhancement_prompt (vr : ValidationResult) :
    (vr.valid = true → generate_enhancement_prompt vr = "") ∧
    (vr.valid = false →
      (∀ i ∈ vr.issues, strIncl i (generate_enhancement_prompt vr) = true) ∧
      (∀ c ∈ categoriesInOrder, strIncl (catReqLine c) (generate_enhancement_prompt vr) = true) ∧
      strIncl "- Generate EXACTLY 15-20 use cases total" (generate_enhancement_prompt vr) = true) := by
  constructor
  · intro h
    simp [generate_enhancement_prompt, h]
  · intro h
    have hp : generate_enhancement_prompt vr =
        (((promptHeader ++ strConcat (vr.issues.map fun i => "- " ++ i ++ "\n")) ++
          promptReqHeader) ++ strConcat (categoriesInOrder.map catReqLine)) ++ promptTail := by
      simp only [generate_enhancement_prompt, h, Bool.false_eq_true, if_false,
        foldl_strAppend]
    rw [hp]
    refine ⟨?_, ?_, ?_⟩
    · intro i hi
      apply strIncl_append_right
      apply strIncl_append_right
      apply strIncl_append_right
      exact strIncl_append_left _ _ _ (strIncl_issue_block i vr.issues hi)
    · intro c hc
      apply strIncl_append_right
      apply strIncl_append_left
      exact strIncl_strConcat_mem _ _ (List.mem_map_of_mem catReqLine hc)
    · apply strIncl_append_right
      apply strIncl_append_right
      apply strIncl_append_left
      decide

/-- Witness for C9: the empty input yields an invalid result whose global
violation string appears verbatim in the generated prompt. -/
theorem c9_enhancement_prompt_witness :
    strIncl "Total use cases: 0, need 15-20"
      (generate_enhancement_prompt (validate_use_cases "")) = true := by
  have h := (c9_enhancement_prompt (validate_use_cases "")).2 (by decide)
  exact h.1 "Total use cases: 0, need 15-20" (by decide)
